import Mathlib

/-!
Verification of the save-data transformation engine of DaveSaveEd
(src/SaveGameManager.cpp, src/SaveGameManager.h).

The C++ engine keeps the decoded save as a nlohmann::json value.  The
default nlohmann::json object type is backed by std::map<std::string, json>,
so object members are kept sorted by key (lexicographic byte order) with
unique keys, and iteration visits members in that order.  We embed json
values as the inductive type JVal below, objects being association lists;
the std::map representation invariant (strictly sorted unique keys) is
expressed by the predicates PWKeys / DocWF where a theorem needs it.
Floating point json numbers are not modelled (no claim involves them).

Exceptions of nlohmann::json accessors are modelled with Option (none =
the accessor throws) or, where the post-throw state matters, with an
explicit thrown flag next to the resulting state.
-/

namespace DaveSaveEd

/-- Shallow embedding of nlohmann::json values (without floats). -/
inductive JVal where
  | null : JVal
  | jbool : Bool → JVal
  | jint : Int → JVal
  | jstr : String → JVal
  | jarr : List JVal → JVal
  | jobj : List (String × JVal) → JVal

/-- Lexicographic comparison of character lists by code point: the
order std::map<std::string, json> sorts its keys by (for the ASCII keys
of this format, byte order and code point order agree). -/
def charListLt : List Char → List Char → Bool
  | _, [] => false
  | [], _ :: _ => true
  | a :: as, b :: bs =>
    if a.toNat < b.toNat then true
    else if b.toNat < a.toNat then false
    else charListLt as bs

/-- std::string operator< on the decoded strings. -/
def strLt (a b : String) : Bool := charListLt a.toList b.toList

/-- First-match lookup in an object member list.  With unique keys this is
exactly std::map::find. -/
def lookupKey : List (String × JVal) → String → Option JVal
  | [], _ => none
  | (k', v) :: rest, k => if k = k' then some v else lookupKey rest k

/-- std::map insert-or-assign at a key: on a strictly key-sorted list this
replaces the value in place when the key is present and otherwise inserts
the new pair at its sorted position.  This is what nlohmann operator[]
followed by assignment does on an object. -/
def objSet : List (String × JVal) → String → JVal → List (String × JVal)
  | [], k, v => [(k, v)]
  | (k', v') :: rest, k, v =>
    if k = k' then (k', v) :: rest
    else if strLt k k' then (k, v) :: (k', v') :: rest
    else (k', v') :: objSet rest k v

/-- json::is_object. -/
def JVal.isObjB : JVal → Bool
  | .jobj _ => true
  | _ => false

/-- json::contains(key): false on every non-object value. -/
def JVal.containsKey : JVal → String → Bool
  | .jobj l, k => (lookupKey l k).isSome
  | _, _ => false

/-- json::get of an arithmetic type (here long long): succeeds on integer
numbers and booleans, throws type_error.302 on everything else
(modelled as none). -/
def getLL : JVal → Option Int
  | .jint n => some n
  | .jbool b => some (if b then 1 else 0)
  | _ => none

/-- json::is_number_integer. -/
def JVal.isIntB : JVal → Bool
  | .jint _ => true
  | _ => false

/-- The state held by a SaveGameManager instance: m_saveData,
m_currentSaveFilePath, m_isSaveFileLoaded. -/
structure SaveState where
  isSaveFileLoaded : Bool
  saveData : JVal
  currentSaveFilePath : String

/-- const long long SAVE_MAX_CURRENCY = 999999999LL. -/
def SAVE_MAX_CURRENCY : Int := 999999999

/-- const std::string XOR_KEY = "GameData". -/
def XOR_KEY : String := "GameData"

/-- Bytes of an ASCII string (the engine only transforms raw bytes; for
the ASCII key the char codes are the bytes). -/
def strBytes (s : String) : List Nat := s.toList.map Char.toNat

/-- Loop body of SaveGameManager::XORDecryptEncrypt:
result[i] = data[i] XOR key[i mod key_len], recursing over the data with
the running index i. -/
def xorGo (key : List Nat) : List Nat → Nat → List Nat
  | [], _ => []
  | b :: rest, i => (b ^^^ key.getD (i % key.length) 0) :: xorGo key rest (i + 1)

/-- SaveGameManager::XORDecryptEncrypt on raw bytes. -/
def XORDecryptEncrypt (data key : List Nat) : List Nat := xorGo key data 0

/-- Decode direction used by LoadSaveFile: XOR with the fixed key. -/
def decodeBytes (b : List Nat) : List Nat := XORDecryptEncrypt b (strBytes XOR_KEY)

/-- Encode direction used by WriteSaveFile: the same XOR transform. -/
def encodeBytes (t : List Nat) : List Nat := XORDecryptEncrypt t (strBytes XOR_KEY)

/-- Common shape of the four typed getters, e.g. GetGold:
if (m_isSaveFileLoaded and m_saveData.contains(sec) and
m_saveData[sec].is_object() and m_saveData[sec].contains(fld))
return m_saveData[sec][fld].get<long long>(); return 0;
none models the get<long long> throw on a non-numeric field. -/
def getLLField (s : SaveState) (sec fld : String) : Option Int :=
  match s.saveData with
  | .jobj rl =>
    if s.isSaveFileLoaded then
      match lookupKey rl sec with
      | some (.jobj sl) =>
        match lookupKey sl fld with
        | some v => getLL v
        | none => some 0
      | _ => some 0
    else some 0
  | _ => some 0

def GetGold (s : SaveState) : Option Int := getLLField s "PlayerInfo" "m_Gold"

def GetBei (s : SaveState) : Option Int := getLLField s "PlayerInfo" "m_Bei"

def GetArtisansFlame (s : SaveState) : Option Int := getLLField s "PlayerInfo" "m_ChefFlame"

def GetFollowerCount (s : SaveState) : Option Int := getLLField s "SNSInfo" "m_Follow_Count"

/-- Common shape of the clamped setters, e.g. SetGold:
if (m_isSaveFileLoaded and m_saveData.contains(sec) and
m_saveData[sec].is_object())
m_saveData[sec][fld] = std::min(value, SAVE_MAX_CURRENCY);
else no-op (a warning is logged). -/
def setLLClamped (s : SaveState) (sec fld : String) (v : Int) : SaveState :=
  match s.saveData with
  | .jobj rl =>
    if s.isSaveFileLoaded then
      match lookupKey rl sec with
      | some (.jobj sl) =>
        { s with saveData :=
            .jobj (objSet rl sec (.jobj (objSet sl fld (.jint (min v SAVE_MAX_CURRENCY))))) }
      | _ => s
    else s
  | _ => s

/-- SetFollowerCount stores the value with no clamp, same guard. -/
def setLLRaw (s : SaveState) (sec fld : String) (v : Int) : SaveState :=
  match s.saveData with
  | .jobj rl =>
    if s.isSaveFileLoaded then
      match lookupKey rl sec with
      | some (.jobj sl) =>
        { s with saveData := .jobj (objSet rl sec (.jobj (objSet sl fld (.jint v)))) }
      | _ => s
    else s
  | _ => s

def SetGold (s : SaveState) (v : Int) : SaveState := setLLClamped s "PlayerInfo" "m_Gold" v

def SetBei (s : SaveState) (v : Int) : SaveState := setLLClamped s "PlayerInfo" "m_Bei" v

def SetArtisansFlame (s : SaveState) (v : Int) : SaveState :=
  setLLClamped s "PlayerInfo" "m_ChefFlame" v

def SetFollowerCount (s : SaveState) (v : Int) : SaveState :=
  setLLRaw s "SNSInfo" "m_Follow_Count" v

/-- static int GetDesiredMaxCountForTier(int item_db_max_count).
Straight-line if/else chain; total, no error path. -/
def GetDesiredMaxCountForTier (c : Int) : Int :=
  if c = 1 then 0
  else if c = 99 then 66
  else if c = 999 then 666
  else if 9999 ≤ c then 6666
  else 0

/-! ## MaxOwnIngredients

The reference store is injected as a point-lookup function
Int → Option Int standing for the prepared statement
SELECT MaxCount FROM Items WHERE ItemDataID = ?; (none = no row, the
per-entry skip).  A null sqlite3 handle is the outer Option none. -/

/-- Per-entry body of the MaxOwnIngredients loop.  The entry value is
left unchanged unless it is an object containing an integer
"ingredientsID" whose looked-up MaxCount classifies to a positive
target; in that case only its "count" member is assigned.
json::contains is false on non-objects, so a malformed (non-object)
entry is skipped, never thrown on. -/
def maxOwnVal (f : Int → Option Int) (v : JVal) : JVal :=
  match v with
  | .jobj lv =>
    match lookupKey lv "ingredientsID" with
    | some (.jint id) =>
      match f id with
      | none => v
      | some mc =>
        let t := GetDesiredMaxCountForTier mc
        if 0 < t then .jobj (objSet lv "count" (.jint t)) else v
    | _ => v
  | _ => v

/-- SaveGameManager::MaxOwnIngredients.  Guards: save loaded, an
"Ingredients" member that is an object, a non-null db handle; otherwise
the whole call is a warning no-op.  The loop rewrites each entry value
in place (keys untouched). -/
def MaxOwnIngredients (s : SaveState) (db : Option (Int → Option Int)) : SaveState :=
  match s.saveData with
  | .jobj rl =>
    if s.isSaveFileLoaded then
      match lookupKey rl "Ingredients" with
      | some (.jobj il) =>
        match db with
        | none => s
        | some f =>
          { s with saveData :=
              .jobj (objSet rl "Ingredients"
                (.jobj (il.map (fun kv => (kv.1, maxOwnVal f kv.2))))) }
      | _ => s
    else s
  | _ => s

/-! ## MaxOwnStaffLevel

The C++ body reads it.value()["name"].get<std::string>() with no guard:
on an entry whose "name" member is missing the non-const operator[]
first inserts "name": null and then get<std::string>() throws
type_error.302; on a non-string "name" it throws without inserting.
The exception escapes the loop, so entries processed earlier keep their
new level (the document is mutated in place).  We model the call as a
pair (thrown flag, resulting state). -/

/-- One staff entry: (threw, entry value afterwards). -/
def staffStep (v : JVal) : Bool × JVal :=
  match v with
  | .jobj lv =>
    match lookupKey lv "name" with
    | some (.jstr nm) =>
      if nm = "Staff_Dave" then (false, v)
      else (false, .jobj (objSet lv "level" (.jint 20)))
    | some _ => (true, v)
    | none => (true, .jobj (objSet lv "name" .null))
  | .null => (true, .jobj [("name", JVal.null)])
  | _ => (true, v)

/-- The staff loop over an object collection; stops at the first throw,
leaving later entries untouched. -/
def staffLoop : List (String × JVal) → Bool × List (String × JVal)
  | [] => (false, [])
  | (k, v) :: rest =>
    match staffStep v with
    | (true, v') => (true, (k, v') :: rest)
    | (false, v') =>
      let r := staffLoop rest
      (r.1, (k, v') :: r.2)

/-- The staff loop over an array collection (json iteration visits
array elements the same way). -/
def staffLoopArr : List JVal → Bool × List JVal
  | [] => (false, [])
  | v :: rest =>
    match staffStep v with
    | (true, v') => (true, v' :: rest)
    | (false, v') =>
      let r := staffLoopArr rest
      (r.1, v' :: r.2)

/-- SaveGameManager::MaxOwnStaffLevel.  Guard is only
m_isSaveFileLoaded and m_saveData.contains("Staff"): a "Staff" member
of any type passes it.  Iterating a null json is an empty range;
iterating another primitive visits the value once and operator[] on it
throws type_error.305. -/
def MaxOwnStaffLevel (s : SaveState) : Bool × SaveState :=
  match s.saveData with
  | .jobj rl =>
    if s.isSaveFileLoaded then
      match lookupKey rl "Staff" with
      | some (.jobj staffL) =>
        let r := staffLoop staffL
        (r.1, { s with saveData := .jobj (objSet rl "Staff" (.jobj r.2)) })
      | some (.jarr elems) =>
        let r := staffLoopArr elems
        (r.1, { s with saveData := .jobj (objSet rl "Staff" (.jarr r.2)) })
      | some .null => (false, s)
      | some _ => (true, s)
      | none => (false, s)
    else (false, s)
  | _ => (false, s)

/-! ## MaxAllIngredients

The join
SELECT I.TID AS ingredientsID_for_save_file_key, T.TID AS parentID,
T.MaxCount FROM Ingredients AS I JOIN Items AS T ON I.TID = T.ItemDataID
is injected as a list of rows (a null handle is none; with the fixed
query every row carries all three columns, so the missing-column skip
branch of the C++ loop is dead in the model). -/

structure RefRow where
  id : Int
  parentID : Int
  maxCount : Int

/-- The complete entry synthesized for an absent ingredient, as the
std::map holds it after the nine operator[] assignments (members sorted
by key). -/
def newIngredientEntry (id parentID count : Int) (t1 t2 : String) : JVal :=
  .jobj
    [ ("branchCount", .jint 0)
    , ("count", .jint count)
    , ("ingredientsID", .jint id)
    , ("isNew", .jbool true)
    , ("lastGainGameTime", .jstr t2)
    , ("lastGainTime", .jstr t1)
    , ("level", .jint 1)
    , ("parentID", .jint parentID)
    , ("placeTagMask", .jint 1)
    ]

/-- Default gain timestamps: fixed literals, overridden from the first
entry of the (key-sorted) ingredients map when it is non-empty and the
member is a string. -/
def defaultGainTimes (il : List (String × JVal)) : String × String :=
  match il with
  | [] => ("04/01/2025 12:34:56", "10/03/2022 08:30:52")
  | (_, v) :: _ =>
    ( match v with
      | .jobj lv =>
        match lookupKey lv "lastGainTime" with
        | some (.jstr s) => s
        | _ => "04/01/2025 12:34:56"
      | _ => "04/01/2025 12:34:56"
    , match v with
      | .jobj lv =>
        match lookupKey lv "lastGainGameTime" with
        | some (.jstr s) => s
        | _ => "10/03/2022 08:30:52"
      | _ => "10/03/2022 08:30:52" )

/-- Target for a row, 0 meaning skip. -/
def rowTarget (r : RefRow) : Int := GetDesiredMaxCountForTier r.maxCount

/-- Save-file key of a row: std::to_string(ingredients_id_from_db). -/
def rowKey (r : RefRow) : String := toString r.id

/-- One iteration of the MaxAllIngredients loop over the ingredients
member list.  Skips target-0 rows; updates only "count" of an existing
entry (operator[] on an existing non-object, non-null entry value
throws type_error.305 = none; on null it creates the object);
synthesizes a complete entry for an absent key. -/
def maxAllStep (dt : String × String) (il : List (String × JVal)) (r : RefRow) :
    Option (List (String × JVal)) :=
  let t := rowTarget r
  if t = 0 then some il
  else
    match lookupKey il (rowKey r) with
    | some (.jobj lv) => some (objSet il (rowKey r) (.jobj (objSet lv "count" (.jint t))))
    | some .null => some (objSet il (rowKey r) (.jobj [("count", .jint t)]))
    | some _ => none
    | none => some (objSet il (rowKey r) (newIngredientEntry r.id r.parentID t dt.1 dt.2))

/-- The whole row loop; an exception aborts the operation. -/
def maxAllFold (dt : String × String) : List (String × JVal) → List RefRow →
    Option (List (String × JVal))
  | il, [] => some il
  | il, r :: rs =>
    match maxAllStep dt il r with
    | some il' => maxAllFold dt il' rs
    | none => none

/-- Lines 602-605: if (!m_saveData.contains("Ingredients") ||
!m_saveData["Ingredients"].is_object())
m_saveData["Ingredients"] = nlohmann::json::object();
The assignment converts a null root into an object and throws
type_error.305 (none) on any other non-object root. -/
def ensureIngredients (root : JVal) : Option JVal :=
  if root.containsKey "Ingredients" &&
     (match root with
      | .jobj rl =>
        match lookupKey rl "Ingredients" with
        | some v => v.isObjB
        | none => false
      | _ => false) then
    some root
  else
    match root with
    | .jobj rl => some (.jobj (objSet rl "Ingredients" (.jobj [])))
    | .null => some (.jobj [("Ingredients", .jobj [])])
    | _ => none

/-- SaveGameManager::MaxAllIngredients.  Returns none when a json
exception escapes (the only sources: creating the "Ingredients" member
on a non-object, non-null root, and operator[] on a malformed existing
entry).  Ensures the "Ingredients" member exists and is an object, reads
the default timestamps from the first entry, then folds over the rows. -/
def MaxAllIngredients (s : SaveState) (db : Option (List RefRow)) : Option SaveState :=
  if s.isSaveFileLoaded then
    match db with
    | none => some s
    | some rows =>
      match ensureIngredients s.saveData with
      | none => none
      | some root =>
        match root with
        | .jobj rl =>
          match lookupKey rl "Ingredients" with
          | some (.jobj il) =>
            match maxAllFold (defaultGainTimes il) il rows with
            | some il' => some { s with saveData := .jobj (objSet rl "Ingredients" (.jobj il')) }
            | none => none
          | _ => none
        | _ => none
  else some s

/-! ## WriteSaveFile

The filesystem is an association list path → bytes (latest write
shadows older entries, lookup takes the first match).  External
operations that can fail at runtime (GetTempPathW, create_directories,
filesystem::copy, json::dump, ofstream open) are driven by boolean
outcome flags in a WriteEnv; each is modelled as atomic (it either
happens in full or throws leaving the filesystem as it was), matching
the C++ view in which std::filesystem::copy and a single
ofstream::write either complete or fail. -/

/-- The external outcomes and inputs of one WriteSaveFile call. -/
structure WriteEnv where
  tempPathOk : Bool
  tempDir : String
  createDirOk : Bool
  copyOk : Bool
  dumpOk : Bool
  openOk : Bool
  timestamp : String

/-- m_saveData.dump(): stand-in for the library serializer.  Its exact
output never matters to the WriteSaveFile guarantees; it only has to be
a total function of the document.  Nested lists are traversed with
attached membership so the recursion is structural in sizeOf. -/
def dumpStr : JVal → String
  | .null => "null"
  | .jbool b => if b then "true" else "false"
  | .jint n => toString n
  | .jstr s => "\x22" ++ s ++ "\x22"
  | .jarr xs => "[" ++ String.intercalate "," (xs.attach.map (fun x => dumpStr x.1)) ++ "]"
  | .jobj kvs =>
    "\x7b" ++
      String.intercalate ","
        (kvs.attach.map (fun kv => "\x22" ++ kv.1.1 ++ "\x22:" ++ dumpStr kv.1.2)) ++
    "\x7d"
decreasing_by
  all_goals simp_wf
  · have := List.sizeOf_lt_of_mem x.2
    omega
  · obtain ⟨⟨k, v⟩, hm⟩ := kv
    have := List.sizeOf_lt_of_mem hm
    simp at this ⊢
    omega

/-- Filesystem write: latest entry shadows older ones. -/
def fsWrite (fs : List (String × List Nat)) (p : String) (b : List Nat) :
    List (String × List Nat) :=
  (p, b) :: fs

/-- Filesystem read. -/
def fsRead : List (String × List Nat) → String → Option (List Nat)
  | [], _ => none
  | (p', b) :: rest, p => if p = p' then some b else fsRead rest p

/-- The backup directory chosen in steps (a)-(b): a DaveSaveEd_Backups
subfolder of the system temp path, or a backups subfolder next to the
original on GetTempPathW failure.  Path arithmetic (parent_path, stem,
extension) is abstracted to string concatenation; the theorems only use
that the result is a distinct, non-empty path. -/
def backupDirOf (env : WriteEnv) (origPath : String) : String :=
  if env.tempPathOk then env.tempDir ++ "/DaveSaveEd_Backups"
  else origPath ++ "/../backups"

/-- backup_dir / (stem + "_" + timestamp + extension). -/
def backupPathOf (env : WriteEnv) (origPath : String) : String :=
  backupDirOf env origPath ++ "/" ++ origPath ++ "_" ++ env.timestamp

/-- Result of a WriteSaveFile call: the boolean return value, the
out_backup_filepath output parameter, and the filesystem afterwards. -/
structure WriteOutcome where
  ok : Bool
  backupFilepath : String
  fs : List (String × List Nat)

/-- SaveGameManager::WriteSaveFile.  out_backup_filepath is cleared
first and only assigned after the final write succeeds; every failure
(guard or exception) therefore reports an empty backup path.  The
original path is only written in the last step. -/
def WriteSaveFile (s : SaveState) (env : WriteEnv) (fs : List (String × List Nat)) :
    WriteOutcome :=
  if !s.isSaveFileLoaded || s.currentSaveFilePath = "" then ⟨false, "", fs⟩
  else if !env.createDirOk then ⟨false, "", fs⟩
  else
    let bp := backupPathOf env s.currentSaveFilePath
    match fsRead fs s.currentSaveFilePath with
    | none => ⟨false, "", fs⟩
    | some origBytes =>
      if !env.copyOk then ⟨false, "", fs⟩
      else
        let fs1 := fsWrite fs bp origBytes
        if !env.dumpOk then ⟨false, "", fs1⟩
        else
          let finalBytes := encodeBytes (strBytes (dumpStr s.saveData))
          if !env.openOk then ⟨false, "", fs1⟩
          else ⟨true, bp, fsWrite fs1 s.currentSaveFilePath finalBytes⟩

/-! ## Well-formedness: the std::map representation invariant

nlohmann::json objects are std::map<std::string, json>: member lists are
strictly sorted by key.  PWr states this for one member list; SecWF and
DocWF state it for the two levels of nesting the theorems need. -/

/-- Keys of a member list are strictly sorted (std::map invariant). -/
def PWr (l : List (String × JVal)) : Prop :=
  l.Pairwise (fun a b => strLt a.1 b.1 = true)

/-- Entry values of a collection that are objects have sorted members. -/
def entriesWF (il : List (String × JVal)) : Prop :=
  ∀ kv ∈ il, ∀ lv, kv.2 = JVal.jobj lv → PWr lv

/-- A top-level section: if an object, sorted, with well-formed entries. -/
def SecWF : JVal → Prop
  | .jobj il => PWr il ∧ entriesWF il
  | _ => True

/-- A document root: if an object, sorted, with well-formed sections. -/
def DocWF : JVal → Prop
  | .jobj rl => PWr rl ∧ ∀ kv ∈ rl, SecWF kv.2
  | _ => True

/-! ## Agreement relation used for MaxAllIngredients idempotence -/

/-- Keys of the rows a MaxAllIngredients run acts on (target nonzero). -/
def posKeys (rows : List RefRow) : List String :=
  rows.filterMap (fun r => if rowTarget r = 0 then none else some (rowKey r))

/-- Pointwise relation of a second-run state to the first-run result:
at keys outside K the looked-up values are equal; at keys in K the left
value may additionally be the right value with its "count" member
overwritten. -/
def OAgree (K : List String) (k : String) (o₀ oe : Option JVal) : Prop :=
  if k ∈ K then
    o₀ = oe ∨ ∃ c le, oe = some (.jobj le) ∧ o₀ = some (.jobj (objSet le "count" (.jint c)))
  else o₀ = oe

/-- Whole-collection agreement: same keys in the same order, and OAgree
lookups at every key. -/
def ilAgree (K : List String) (il₀ ile : List (String × JVal)) : Prop :=
  il₀.map Prod.fst = ile.map Prod.fst ∧
  ∀ k, OAgree K k (lookupKey il₀ k) (lookupKey ile k)

/-! ## Concrete inputs used by counterexamples, scenarios and witnesses -/

/-- A loaded document whose m_Gold member is a string: get<long long>
throws on it. -/
def c4doc : SaveState :=
  ⟨true, .jobj [("PlayerInfo", .jobj [("m_Gold", .jstr "not a number")])], "p"⟩

/-- A loaded document for the getter/setter witnesses. -/
def c45doc : SaveState :=
  ⟨true,
   .jobj
     [ ("PlayerInfo", .jobj [("m_Gold", .jint 100)])
     , ("SNSInfo", .jobj [("m_Follow_Count", .jint 3)]) ],
   "p"⟩

/-- Staff collection with one well-formed entry followed by one entry
without a "name" member. -/
def c9staff : SaveState :=
  ⟨true,
   .jobj [("Staff", .jobj
     [ ("s1", .jobj [("level", .jint 1), ("name", .jstr "Staff_Bob")])
     , ("s2", .jobj [("level", .jint 1)]) ])],
   "p"⟩

/-- Staff collection of the spec scenario: Staff_Dave and Staff_Bob. -/
def c9good : SaveState :=
  ⟨true,
   .jobj [("Staff", .jobj
     [ ("b", .jobj [("level", .jint 1), ("name", .jstr "Staff_Bob")])
     , ("d", .jobj [("level", .jint 1), ("name", .jstr "Staff_Dave")]) ])],
   "p"⟩

/-- Loaded document with an empty ingredients collection. -/
def c7state : SaveState := ⟨true, .jobj [("Ingredients", .jobj [])], "p"⟩

/-- The single reference row of the C7 scenario. -/
def c7rows : List RefRow := [⟨5, 5, 99⟩]

/-- Result of the C7 scenario (also the C6 witness fixed point). -/
def c7result : SaveState :=
  ⟨true,
   .jobj [("Ingredients", .jobj
     [("5", newIngredientEntry 5 5 66 "04/01/2025 12:34:56" "10/03/2022 08:30:52")])],
   "p"⟩

/-- Ingredients entries for the C8 witness. -/
def c8il : List (String × JVal) :=
  [ ("5", .jobj [("count", .jint 1), ("ingredientsID", .jint 5)])
  , ("7", .jobj [("count", .jint 2), ("ingredientsID", .jint 7)]) ]

/-- Root member list for the C8 witness. -/
def c8rl : List (String × JVal) := [("Ingredients", .jobj c8il)]

/-- Loaded ingredients collection for the C8 witness. -/
def c8state : SaveState := ⟨true, .jobj c8rl, "p"⟩

/-- Reference lookup for the C8 witness: id 5 has MaxCount 99, id 7 is
missing from the Items table. -/
def c8db (id : Int) : Option Int := if id = 5 then some 99 else none

/-- Loaded state for the C2 witness. -/
def c2state : SaveState := ⟨true, .jobj [], "save.sav"⟩

/-- All-steps-succeed environment for the C2 witness. -/
def c2env : WriteEnv := ⟨true, "T", true, true, true, true, "TS"⟩

/-- One-file filesystem for the C2 witness. -/
def c2fs : List (String × List Nat) := [("save.sav", [1, 2, 3])]

/-! ## Order lemmas for the key comparison -/

theorem charListLt_irrefl (l : List Char) : charListLt l l = false := by
  induction l with
  | nil => rfl
  | cons a as ih => simp [charListLt, ih]

theorem strLt_irrefl (a : String) : strLt a a = false := charListLt_irrefl _

theorem strLt_ne {a b : String} (h : strLt a b = true) : a ≠ b := by
  intro he
  subst he
  rw [strLt_irrefl] at h
  cases h

theorem charListLt_asymm : ∀ {as bs : List Char},
    charListLt as bs = true → charListLt bs as = false := by
  intro as
  induction as with
  | nil =>
    intro bs h
    cases bs with
    | nil => simp [charListLt] at h
    | cons b bs => rfl
  | cons a as ih =>
    intro bs h
    cases bs with
    | nil => simp [charListLt] at h
    | cons b bs =>
      rw [charListLt] at h ⊢
      by_cases h1 : a.toNat < b.toNat
      · have h2 : ¬ b.toNat < a.toNat := by omega
        simp [h1, h2]
      · by_cases h2 : b.toNat < a.toNat
        · simp [h1, h2] at h
        · simp [h1, h2] at h ⊢
          exact ih h

theorem strLt_asymm {a b : String} (h : strLt a b = true) : strLt b a = false :=
  charListLt_asymm h

theorem charListLt_trans : ∀ {as bs cs : List Char},
    charListLt as bs = true → charListLt bs cs = true → charListLt as cs = true := by
  intro as
  induction as with
  | nil =>
    intro bs cs h1 h2
    cases bs with
    | nil => simp [charListLt] at h1
    | cons b bs =>
      cases cs with
      | nil => simp [charListLt] at h2
      | cons c cs => rfl
  | cons a as ih =>
    intro bs cs h1 h2
    cases bs with
    | nil => simp [charListLt] at h1
    | cons b bs =>
      cases cs with
      | nil => simp [charListLt] at h2
      | cons c cs =>
        rw [charListLt] at h1 h2 ⊢
        by_cases hab : a.toNat < b.toNat
        · by_cases hbc : b.toNat < c.toNat
          · have : a.toNat < c.toNat := by omega
            simp [this]
          · by_cases hcb : c.toNat < b.toNat
            · simp [hbc, hcb] at h2
            · have : a.toNat < c.toNat := by omega
              simp [this]
        · by_cases hba : b.toNat < a.toNat
          · simp [hab, hba] at h1
          · simp [hab, hba] at h1
            by_cases hbc : b.toNat < c.toNat
            · have : a.toNat < c.toNat := by omega
              simp [this]
            · by_cases hcb : c.toNat < b.toNat
              · simp [hbc, hcb] at h2
              · simp [hbc, hcb] at h2
                have hac : ¬ a.toNat < c.toNat := by omega
                have hca : ¬ c.toNat < a.toNat := by omega
                simp [hac, hca]
                exact ih h1 h2

theorem strLt_trans {a b c : String} (h1 : strLt a b = true) (h2 : strLt b c = true) :
    strLt a c = true :=
  charListLt_trans h1 h2

theorem charListLt_total : ∀ (as bs : List Char),
    as = bs ∨ charListLt as bs = true ∨ charListLt bs as = true := by
  intro as
  induction as with
  | nil =>
    intro bs
    cases bs with
    | nil => exact Or.inl rfl
    | cons b bs => exact Or.inr (Or.inl rfl)
  | cons a as ih =>
    intro bs
    cases bs with
    | nil => exact Or.inr (Or.inr rfl)
    | cons b bs =>
      rcases Nat.lt_trichotomy a.toNat b.toNat with h | h | h
      · exact Or.inr (Or.inl (by rw [charListLt]; simp [h]))
      · have hab : a = b := Char.eq_of_val_eq (UInt32.ext h)
        subst hab
        have h1 : ¬ a.toNat < a.toNat := by omega
        rcases ih bs with h2 | h2 | h2
        · exact Or.inl (by rw [h2])
        · exact Or.inr (Or.inl (by rw [charListLt]; simp [h1, h2]))
        · exact Or.inr (Or.inr (by rw [charListLt]; simp [h1, h2]))
      · exact Or.inr (Or.inr (by rw [charListLt]; simp [h]))

theorem strLt_total (a b : String) :
    a = b ∨ strLt a b = true ∨ strLt b a = true := by
  rcases charListLt_total a.toList b.toList with h | h | h
  · exact Or.inl (String.ext h)
  · exact Or.inr (Or.inl h)
  · exact Or.inr (Or.inr h)

/-- From strLt b a, the branch condition strLt a b of objSet is false. -/
theorem strLt_not_rev {a b : String} (h : strLt b a = true) : ¬ strLt a b = true := by
  intro h2
  rw [strLt_asymm h2] at h
  cases h

/-! ## Association list lemmas (std::map semantics) -/

theorem lookupKey_objSet_self (l : List (String × JVal)) (k : String) (v : JVal) :
    lookupKey (objSet l k v) k = some v := by
  induction l with
  | nil => simp [objSet, lookupKey]
  | cons kv rest ih =>
    obtain ⟨k', v'⟩ := kv
    by_cases h : k = k'
    · simp [objSet, h, lookupKey]
    · by_cases h2 : strLt k k' = true
      · simp [objSet, h, h2, lookupKey]
      · simp [objSet, h, h2, lookupKey, ih]

theorem lookupKey_objSet_ne (l : List (String × JVal)) (k k' : String) (v : JVal)
    (h : k' ≠ k) : lookupKey (objSet l k v) k' = lookupKey l k' := by
  induction l with
  | nil => simp [objSet, lookupKey, h]
  | cons kv rest ih =>
    obtain ⟨k₁, v₁⟩ := kv
    by_cases h1 : k = k₁
    · subst h1
      simp [objSet, lookupKey, h]
    · by_cases h2 : strLt k k₁ = true
      · simp [objSet, h1, h2, lookupKey, h]
      · simp [objSet, h1, h2, lookupKey, ih]

theorem objSet_objSet_same (l : List (String × JVal)) (k : String) (v w : JVal) :
    objSet (objSet l k v) k w = objSet l k w := by
  induction l with
  | nil => simp [objSet]
  | cons kv rest ih =>
    obtain ⟨k₁, v₁⟩ := kv
    by_cases h1 : k = k₁
    · simp [objSet, h1]
    · by_cases h2 : strLt k k₁ = true
      · simp [objSet, h1, h2]
      · simp [objSet, h1, h2, ih]

theorem mem_of_lookupKey {l : List (String × JVal)} {k : String} {v : JVal}
    (h : lookupKey l k = some v) : (k, v) ∈ l := by
  induction l with
  | nil => simp [lookupKey] at h
  | cons kv rest ih =>
    obtain ⟨k₁, v₁⟩ := kv
    by_cases h1 : k = k₁
    · subst h1
      simp [lookupKey] at h
      simp [h]
    · simp [lookupKey, h1] at h
      exact List.mem_cons_of_mem _ (ih h)

theorem mem_keys_of_lookupKey {l : List (String × JVal)} {k : String} {v : JVal}
    (h : lookupKey l k = some v) : k ∈ l.map Prod.fst := by
  have := mem_of_lookupKey h
  exact List.mem_map.mpr ⟨(k, v), this, rfl⟩

theorem lookupKey_eq_none_of_not_mem {l : List (String × JVal)} {k : String}
    (h : k ∉ l.map Prod.fst) : lookupKey l k = none := by
  induction l with
  | nil => rfl
  | cons kv rest ih =>
    obtain ⟨k₁, v₁⟩ := kv
    rw [List.map_cons] at h
    simp only [List.mem_cons, not_or] at h
    simp [lookupKey, h.1, ih h.2]

theorem mem_objSet_elim {l : List (String × JVal)} {k : String} {v : JVal}
    {x : String × JVal} (h : x ∈ objSet l k v) : x = (k, v) ∨ x ∈ l := by
  induction l with
  | nil => simp [objSet] at h; simp [h]
  | cons kv rest ih =>
    obtain ⟨k₁, v₁⟩ := kv
    by_cases h1 : k = k₁
    · subst h1
      simp [objSet] at h
      rcases h with h | h
      · simp [h]
      · simp [h]
    · by_cases h2 : strLt k k₁ = true
      · simp [objSet, h1, h2] at h
        rcases h with h | h | h
        · simp [h]
        · simp [h]
        · simp [h]
      · simp [objSet, h1, h2] at h
        rcases h with h | h
        · simp [h]
        · rcases ih h with h3 | h3
          · simp [h3]
          · simp [h3]

theorem keys_objSet_subset {l : List (String × JVal)} {k k' : String} {v : JVal}
    (h : k' ∈ (objSet l k v).map Prod.fst) : k' = k ∨ k' ∈ l.map Prod.fst := by
  rcases List.mem_map.mp h with ⟨x, hx, hfst⟩
  rcases mem_objSet_elim hx with h1 | h1
  · left; rw [← hfst, h1]
  · right; exact List.mem_map.mpr ⟨x, h1, hfst⟩

theorem PWr_objSet {l : List (String × JVal)} {k : String} {v : JVal}
    (h : PWr l) : PWr (objSet l k v) := by
  induction l with
  | nil => simp [objSet, PWr]
  | cons kv rest ih =>
    obtain ⟨k₁, v₁⟩ := kv
    rw [PWr, List.pairwise_cons] at h
    by_cases h1 : k = k₁
    · subst h1
      have he : objSet ((k, v₁) :: rest) k v = (k, v) :: rest := by simp [objSet]
      rw [he, PWr, List.pairwise_cons]
      exact h
    · by_cases h2 : strLt k k₁ = true
      · simp only [objSet, if_neg h1, if_pos h2]
        rw [PWr, List.pairwise_cons]
        constructor
        · intro b hb
          rcases List.mem_cons.mp hb with hb | hb
          · rw [hb]; exact h2
          · exact strLt_trans h2 (h.1 b hb)
        · rw [List.pairwise_cons]
          exact h
      · simp only [objSet, if_neg h1, if_neg h2]
        rw [PWr, List.pairwise_cons]
        constructor
        · intro b hb
          rcases mem_objSet_elim hb with h3 | h3
          · rw [h3]
            rcases strLt_total k k₁ with h4 | h4 | h4
            · exact absurd h4 h1
            · exact absurd h4 h2
            · exact h4
          · exact h.1 b h3
        · exact ih h.2

theorem objSet_eq_self {l : List (String × JVal)} {k : String} {v : JVal}
    (hs : PWr l) (h : lookupKey l k = some v) : objSet l k v = l := by
  induction l with
  | nil => simp [lookupKey] at h
  | cons kv rest ih =>
    obtain ⟨k₁, v₁⟩ := kv
    rw [PWr, List.pairwise_cons] at hs
    by_cases h1 : k = k₁
    · subst h1
      simp [lookupKey] at h
      simp [objSet, h]
    · simp [lookupKey, h1] at h
      have h3 : strLt k₁ k = true := hs.1 (k, v) (mem_of_lookupKey h)
      have h2 : ¬ strLt k k₁ = true := strLt_not_rev h3
      simp only [objSet, if_neg h1, if_neg h2]
      rw [ih hs.2 h]

theorem map_fst_objSet_of_mem {l : List (String × JVal)} {k : String} {v : JVal}
    (hs : PWr l) (hk : k ∈ l.map Prod.fst) :
    (objSet l k v).map Prod.fst = l.map Prod.fst := by
  induction l with
  | nil => simp at hk
  | cons kv rest ih =>
    obtain ⟨k₁, v₁⟩ := kv
    rw [PWr, List.pairwise_cons] at hs
    by_cases h1 : k = k₁
    · subst h1
      simp [objSet]
    · rw [List.map_cons] at hk
      rcases List.mem_cons.mp hk with hk | hk
      · exact absurd hk h1
      · obtain ⟨x, hxmem, hxfst⟩ := List.mem_map.mp hk
        have h3 : strLt k₁ k = true := by
          have := hs.1 x hxmem
          rw [hxfst] at this
          exact this
        have h2 : ¬ strLt k k₁ = true := strLt_not_rev h3
        simp only [objSet, if_neg h1, if_neg h2]
        rw [List.map_cons, List.map_cons, ih hs.2 hk]

theorem ext_lookup_eq {l₀ l₁ : List (String × JVal)} (hs : PWr l₀)
    (hf : l₀.map Prod.fst = l₁.map Prod.fst)
    (hl : ∀ k, lookupKey l₀ k = lookupKey l₁ k) : l₀ = l₁ := by
  induction l₀ generalizing l₁ with
  | nil =>
    cases l₁ with
    | nil => rfl
    | cons kv rest => simp at hf
  | cons kv rest ih =>
    obtain ⟨k₀, v₀⟩ := kv
    cases l₁ with
    | nil => simp at hf
    | cons kv₁ rest₁ =>
      obtain ⟨k₁, v₁⟩ := kv₁
      rw [List.map_cons, List.map_cons] at hf
      injection hf with hk01 hftail
      subst hk01
      rw [PWr, List.pairwise_cons] at hs
      have hnotmem : k₀ ∉ rest.map Prod.fst := by
        intro hmem
        obtain ⟨x, hxmem, hxfst⟩ := List.mem_map.mp hmem
        have := hs.1 x hxmem
        rw [hxfst, strLt_irrefl] at this
        cases this
      have hv01 : v₀ = v₁ := by
        have := hl k₀
        simp [lookupKey] at this
        exact this
      subst hv01
      have htail : ∀ k, lookupKey rest k = lookupKey rest₁ k := by
        intro k
        by_cases hk : k = k₀
        · subst hk
          have h1 : k ∉ rest₁.map Prod.fst := by
            rw [← hftail]; exact hnotmem
          rw [lookupKey_eq_none_of_not_mem hnotmem, lookupKey_eq_none_of_not_mem h1]
        · have := hl k
          simp [lookupKey, hk] at this
          exact this
      rw [ih hs.2 hftail htail]

/-! ## C1: the XOR codec round trip -/

theorem xorGo_invol (key : List Nat) (data : List Nat) (i : Nat) :
    xorGo key (xorGo key data i) i = data := by
  induction data generalizing i with
  | nil => rfl
  | cons b rest ih => simp [xorGo, ih, Nat.xor_cancel_right]

/-- C1: the byte codec is a self-inverse round trip.  Decode and Encode
are both the XOR transform output[i] = input[i] XOR key[i mod keyLength]
with the fixed key "GameData", which is non-empty; the transform is a
total function, and applying it twice returns the input, in both
directions. -/
theorem claim_C1_xor_roundtrip :
    (∀ x : List Nat, decodeBytes (encodeBytes x) = x) ∧
    (∀ b : List Nat, encodeBytes (decodeBytes b) = b) ∧
    strBytes XOR_KEY ≠ [] := by
  refine ⟨?_, ?_, by decide⟩
  · intro x
    exact xorGo_invol _ x 0
  · intro b
    exact xorGo_invol _ b 0

/-! ## C3: the tier classifier -/

/-- C3: the tier classifier is total on non-negative integers (it is a
total Lean function with no error path), maps 1 to 0, 99 to 66, 999 to
666, everything at least 9999 to 6666, every other non-negative input
to 0, and in particular 9999, 10000 and 50 to 6666, 6666 and 0. -/
theorem claim_C3_tier_classifier :
    GetDesiredMaxCountForTier 1 = 0 ∧
    GetDesiredMaxCountForTier 99 = 66 ∧
    GetDesiredMaxCountForTier 999 = 666 ∧
    (∀ c : Int, 9999 ≤ c → GetDesiredMaxCountForTier c = 6666) ∧
    (∀ c : Int, 0 ≤ c → c ≠ 1 → c ≠ 99 → c ≠ 999 → c < 9999 →
      GetDesiredMaxCountForTier c = 0) ∧
    GetDesiredMaxCountForTier 9999 = 6666 ∧
    GetDesiredMaxCountForTier 10000 = 6666 ∧
    GetDesiredMaxCountForTier 50 = 0 := by
  refine ⟨by decide, by decide, by decide, ?_, ?_, by decide, by decide, by decide⟩
  · intro c hc
    rw [GetDesiredMaxCountForTier]
    rw [if_neg (by omega), if_neg (by omega), if_neg (by omega), if_pos hc]
  · intro c h0 h1 h2 h3 h4
    rw [GetDesiredMaxCountForTier]
    rw [if_neg h1, if_neg h2, if_neg h3, if_neg (by omega)]

/-- Witness for C3: the universally quantified parts applied at the
concrete capacities 10000 and 50. -/
theorem claim_C3_witness :
    GetDesiredMaxCountForTier 10000 = 6666 ∧ GetDesiredMaxCountForTier 50 = 0 :=
  ⟨claim_C3_tier_classifier.2.2.2.1 10000 (by omega),
   claim_C3_tier_classifier.2.2.2.2.1 50 (by omega) (by decide) (by decide) (by decide)
     (by omega)⟩

/-! ## C4: guarded getters and setters -/

/-- C4 counterexample: the claim says the typed getters never raise for
any document, but on a loaded document whose PlayerInfo.m_Gold member is
present and a string, GetGold reaches get<long long>() on a string and
throws type_error.302 (modelled as none). -/
theorem claim_C4_counterexample :
    GetGold c4doc = none ∧ c4doc.isSaveFileLoaded = true ∧
    c4doc.saveData.containsKey "PlayerInfo" = true := by
  refine ⟨rfl, rfl, rfl⟩

/-- C4 (amended): the typed getters return 0 when the document is
unloaded, the owning section is absent or not a map, or the field is
absent; they can fail (raise) only when the owning section is a map
whose field is present with a non-integer, non-boolean value; and no
getter or setter ever creates a missing top-level section — when the
owning section is absent or not a map, a setter leaves the document
entirely unchanged. -/
theorem claim_C4_guarded_accessors :
    (∀ s v, GetGold s = getLLField s "PlayerInfo" "m_Gold" ∧
        GetBei s = getLLField s "PlayerInfo" "m_Bei" ∧
        GetArtisansFlame s = getLLField s "PlayerInfo" "m_ChefFlame" ∧
        GetFollowerCount s = getLLField s "SNSInfo" "m_Follow_Count" ∧
        SetGold s v = setLLClamped s "PlayerInfo" "m_Gold" v ∧
        SetBei s v = setLLClamped s "PlayerInfo" "m_Bei" v ∧
        SetArtisansFlame s v = setLLClamped s "PlayerInfo" "m_ChefFlame" v ∧
        SetFollowerCount s v = setLLRaw s "SNSInfo" "m_Follow_Count" v) ∧
    (∀ s sec fld, s.isSaveFileLoaded = false → getLLField s sec fld = some 0) ∧
    (∀ s sec fld, s.saveData.isObjB = false → getLLField s sec fld = some 0) ∧
    (∀ s sec fld rl, s.saveData = .jobj rl →
      (∀ sl, lookupKey rl sec ≠ some (.jobj sl)) → getLLField s sec fld = some 0) ∧
    (∀ s sec fld rl sl, s.saveData = .jobj rl → lookupKey rl sec = some (.jobj sl) →
      lookupKey sl fld = none → getLLField s sec fld = some 0) ∧
    (∀ s sec fld, getLLField s sec fld = none →
      ∃ rl sl v, s.saveData = .jobj rl ∧ lookupKey rl sec = some (.jobj sl) ∧
        lookupKey sl fld = some v ∧ getLL v = none) ∧
    (∀ s sec fld v, s.isSaveFileLoaded = false →
      setLLClamped s sec fld v = s ∧ setLLRaw s sec fld v = s) ∧
    (∀ s sec fld v, s.saveData.isObjB = false →
      setLLClamped s sec fld v = s ∧ setLLRaw s sec fld v = s) ∧
    (∀ s sec fld v rl, s.saveData = .jobj rl →
      (∀ sl, lookupKey rl sec ≠ some (.jobj sl)) →
      setLLClamped s sec fld v = s ∧ setLLRaw s sec fld v = s) := by
  refine ⟨fun s v => ⟨rfl, rfl, rfl, rfl, rfl, rfl, rfl, rfl⟩, ?_, ?_, ?_, ?_, ?_, ?_, ?_, ?_⟩
  · intro s sec fld hl
    obtain ⟨loaded, data, path⟩ := s
    cases hl
    cases data <;> simp [getLLField]
  · intro s sec fld hobj
    obtain ⟨loaded, data, path⟩ := s
    cases data <;> simp_all [getLLField, JVal.isObjB]
  · intro s sec fld rl hd hsec
    obtain ⟨loaded, data, path⟩ := s
    cases hd
    cases loaded
    · simp [getLLField]
    · rw [getLLField]
      cases hs : lookupKey rl sec with
      | none => simp
      | some w => cases w <;> simp_all
  · intro s sec fld rl sl hd hsec hfld
    obtain ⟨loaded, data, path⟩ := s
    cases hd
    cases loaded <;> simp [getLLField, hsec, hfld]
  · intro s sec fld hnone
    obtain ⟨loaded, data, path⟩ := s
    cases data with
    | null => exact absurd hnone (by simp [getLLField])
    | jbool b => exact absurd hnone (by simp [getLLField])
    | jint n => exact absurd hnone (by simp [getLLField])
    | jstr t => exact absurd hnone (by simp [getLLField])
    | jarr xs => exact absurd hnone (by simp [getLLField])
    | jobj rl =>
      cases loaded with
      | false => exact absurd hnone (by simp [getLLField])
      | true =>
        simp only [getLLField, if_pos rfl] at hnone
        cases hs : lookupKey rl sec with
        | none => rw [hs] at hnone; simp at hnone
        | some w =>
          rw [hs] at hnone
          cases w <;> try simp at hnone
          case jobj sl =>
            cases hf : lookupKey sl fld with
            | none => rw [hf] at hnone; simp at hnone
            | some v =>
              rw [hf] at hnone
              exact ⟨rl, sl, v, rfl, hs, hf, hnone⟩
  · intro s sec fld v hl
    obtain ⟨loaded, data, path⟩ := s
    cases hl
    cases data <;> simp [setLLClamped, setLLRaw]
  · intro s sec fld v hobj
    obtain ⟨loaded, data, path⟩ := s
    cases data <;> simp_all [setLLClamped, setLLRaw, JVal.isObjB]
  · intro s sec fld v rl hd hsec
    obtain ⟨loaded, data, path⟩ := s
    cases hd
    cases loaded
    · simp [setLLClamped, setLLRaw]
    · rw [setLLClamped, setLLRaw]
      cases hs : lookupKey rl sec with
      | none => simp
      | some w => cases w <;> simp_all

/-- Witness for C4 (amended): the guards applied to concrete documents —
an unloaded document, a loaded document missing the section, and the
never-raise direction on a numeric field. -/
theorem claim_C4_witness :
    getLLField ⟨false, .jobj [], ""⟩ "PlayerInfo" "m_Gold" = some 0 ∧
    (setLLClamped c45doc "Quests" "f" 5 = c45doc ∧ setLLRaw c45doc "Quests" "f" 5 = c45doc) :=
  ⟨claim_C4_guarded_accessors.2.1 ⟨false, .jobj [], ""⟩ "PlayerInfo" "m_Gold" rfl,
   claim_C4_guarded_accessors.2.2.2.2.2.2.2.2 c45doc "Quests" "f" 5 _ rfl
     (by intro sl h; cases h)⟩

/-! ## C5: clamping and idempotence of the currency setters -/

/-- C5: on a loaded document whose PlayerInfo section is present and a
map, the clamped setters (SetGold, SetBei, SetArtisansFlame all go
through setLLClamped on PlayerInfo) store min(v, 999999999), which never
exceeds 999999999 and equals exactly 999999999 whenever v exceeds it;
setting the same value twice equals setting it once; and
SetFollowerCount, under its section guard, stores its argument with no
clamp. -/
theorem claim_C5_clamped_setters :
    ∀ (s : SaveState) (rl sl : List (String × JVal)) (v : Int),
      s.isSaveFileLoaded = true →
      s.saveData = .jobj rl →
      lookupKey rl "PlayerInfo" = some (.jobj sl) →
      (∀ fld, ∃ rl',
        (setLLClamped s "PlayerInfo" fld v).saveData = .jobj rl' ∧
        lookupKey rl' "PlayerInfo" =
          some (.jobj (objSet sl fld (.jint (min v SAVE_MAX_CURRENCY)))) ∧
        lookupKey (objSet sl fld (.jint (min v SAVE_MAX_CURRENCY))) fld =
          some (.jint (min v SAVE_MAX_CURRENCY)) ∧
        min v SAVE_MAX_CURRENCY ≤ SAVE_MAX_CURRENCY ∧
        (SAVE_MAX_CURRENCY < v → min v SAVE_MAX_CURRENCY = SAVE_MAX_CURRENCY)) ∧
      (SetGold s v = setLLClamped s "PlayerInfo" "m_Gold" v ∧
       SetBei s v = setLLClamped s "PlayerInfo" "m_Bei" v ∧
       SetArtisansFlame s v = setLLClamped s "PlayerInfo" "m_ChefFlame" v) ∧
      (v ≤ SAVE_MAX_CURRENCY → ∀ fld,
        setLLClamped (setLLClamped s "PlayerInfo" fld v) "PlayerInfo" fld v =
          setLLClamped s "PlayerInfo" fld v) ∧
      (∀ sl₂, lookupKey rl "SNSInfo" = some (.jobj sl₂) →
        ∃ rl', (SetFollowerCount s v).saveData = .jobj rl' ∧
          lookupKey rl' "SNSInfo" =
            some (.jobj (objSet sl₂ "m_Follow_Count" (.jint v))) ∧
          lookupKey (objSet sl₂ "m_Follow_Count" (.jint v)) "m_Follow_Count" =
            some (.jint v)) := by
  intro s rl sl v hl hd hsec
  obtain ⟨loaded, data, path⟩ := s
  cases hl
  cases hd
  have hstep : ∀ fld : String,
      setLLClamped ⟨true, .jobj rl, path⟩ "PlayerInfo" fld v =
        ⟨true,
         .jobj (objSet rl "PlayerInfo"
           (.jobj (objSet sl fld (.jint (min v SAVE_MAX_CURRENCY))))),
         path⟩ := by
    intro fld
    simp [setLLClamped, hsec]
  refine ⟨?_, ⟨rfl, rfl, rfl⟩, ?_, ?_⟩
  · intro fld
    refine ⟨objSet rl "PlayerInfo" (.jobj (objSet sl fld (.jint (min v SAVE_MAX_CURRENCY)))),
      by rw [hstep], lookupKey_objSet_self .., lookupKey_objSet_self .., min_le_right ..,
      fun h => min_eq_right (le_of_lt h)⟩
  · intro hle fld
    rw [hstep]
    have h2 :
        lookupKey (objSet rl "PlayerInfo"
            (.jobj (objSet sl fld (.jint (min v SAVE_MAX_CURRENCY))))) "PlayerInfo" =
          some (.jobj (objSet sl fld (.jint (min v SAVE_MAX_CURRENCY)))) :=
      lookupKey_objSet_self ..
    simp [setLLClamped, h2, objSet_objSet_same]
  · intro sl₂ hsns
    refine ⟨objSet rl "SNSInfo" (.jobj (objSet sl₂ "m_Follow_Count" (.jint v))),
      by simp [SetFollowerCount, setLLRaw, hsns], lookupKey_objSet_self ..,
      lookupKey_objSet_self ..⟩

/-- Witness for C5: setting gold to max+1 on a concrete loaded document
stores exactly the maximum, and a repeated in-range set is a no-op. -/
theorem claim_C5_witness :
    min (1000000000 : Int) SAVE_MAX_CURRENCY = SAVE_MAX_CURRENCY ∧
    setLLClamped (setLLClamped c45doc "PlayerInfo" "m_Gold" 5) "PlayerInfo" "m_Gold" 5 =
      setLLClamped c45doc "PlayerInfo" "m_Gold" 5 := by
  constructor
  · obtain ⟨-, -, -, -, -, h⟩ :=
      (claim_C5_clamped_setters c45doc _ [("m_Gold", .jint 100)] 1000000000 rfl rfl rfl).1
        "m_Gold"
    exact h (by norm_num [SAVE_MAX_CURRENCY])
  · exact (claim_C5_clamped_setters c45doc _ [("m_Gold", .jint 100)] 5 rfl rfl
      rfl).2.2.1 (by norm_num [SAVE_MAX_CURRENCY]) "m_Gold"

/-! ## C9: MaxOwnStaffLevel aborts on a malformed staff entry -/

/-- C9 (code bug, evaluated): on a loaded staff collection whose second
entry has no name member, the unguarded
it.value()["name"].get<std::string>() throws out of the loop: the call
aborts (thrown flag true) after the first entry was already raised to
level 20 — a partial mutation — and the malformed entry is left with a
null "name" member inserted by operator[].  The second conjunct is the
spec scenario on a well-formed collection: Staff_Dave is skipped,
Staff_Bob reaches level 20, nothing thrown. -/
theorem claim_C9_staff_malformed_aborts :
    MaxOwnStaffLevel c9staff =
      (true,
       ⟨true,
        .jobj [("Staff", .jobj
          [ ("s1", .jobj [("level", .jint 20), ("name", .jstr "Staff_Bob")])
          , ("s2", .jobj [("level", .jint 1), ("name", JVal.null)]) ])],
        "p"⟩) ∧
    MaxOwnStaffLevel c9good =
      (false,
       ⟨true,
        .jobj [("Staff", .jobj
          [ ("b", .jobj [("level", .jint 20), ("name", .jstr "Staff_Bob")])
          , ("d", .jobj [("level", .jint 1), ("name", .jstr "Staff_Dave")]) ])],
        "p"⟩) :=
  ⟨rfl, rfl⟩

/-! ## Shape of a successful MaxAllIngredients run -/

/-- Case analysis of the ensure step (lines 602-605): success always
yields an object root whose "Ingredients" member is an object, and the
root is the original object, the original object with an empty
collection freshly created, or the object a null root was converted
into. -/
theorem ensureIngredients_shape {root r : JVal} (h : ensureIngredients root = some r) :
    ∃ rl il, r = .jobj rl ∧ lookupKey rl "Ingredients" = some (.jobj il) ∧
      ((∃ rl₀, root = .jobj rl₀ ∧
          ((∃ il₀, lookupKey rl₀ "Ingredients" = some (.jobj il₀) ∧
              rl = rl₀ ∧ il = il₀) ∨
           ((∀ il₀, lookupKey rl₀ "Ingredients" ≠ some (.jobj il₀)) ∧
              rl = objSet rl₀ "Ingredients" (.jobj []) ∧ il = []))) ∨
       (root = .null ∧ rl = [("Ingredients", .jobj [])] ∧ il = [])) := by
  cases root with
  | null =>
    rw [ensureIngredients] at h
    simp only [JVal.containsKey, Bool.false_and, Bool.false_eq_true, if_false] at h
    injection h with h
    exact ⟨[("Ingredients", .jobj [])], [], h.symm, rfl, Or.inr ⟨rfl, rfl, rfl⟩⟩
  | jbool b => simp [ensureIngredients, JVal.containsKey] at h
  | jint n => simp [ensureIngredients, JVal.containsKey] at h
  | jstr t => simp [ensureIngredients, JVal.containsKey] at h
  | jarr xs => simp [ensureIngredients, JVal.containsKey] at h
  | jobj rl₀ =>
    rw [ensureIngredients] at h
    rw [show JVal.containsKey (.jobj rl₀) "Ingredients" =
      (lookupKey rl₀ "Ingredients").isSome from rfl] at h
    cases hing : lookupKey rl₀ "Ingredients" with
    | none =>
      rw [hing] at h
      simp only [Option.isSome_none, Bool.false_and, Bool.false_eq_true, if_false] at h
      injection h with h
      refine ⟨objSet rl₀ "Ingredients" (.jobj []), [], h.symm, lookupKey_objSet_self ..,
        Or.inl ⟨rl₀, rfl, Or.inr ⟨?_, rfl, rfl⟩⟩⟩
      intro il₀ hc
      rw [hing] at hc
      cases hc
    | some w =>
      rw [hing] at h
      cases w with
      | jobj il₀ =>
        simp only [Option.isSome_some, Bool.true_and, JVal.isObjB, if_true] at h
        injection h with h
        exact ⟨rl₀, il₀, h.symm, hing, Or.inl ⟨rl₀, rfl, Or.inl ⟨il₀, hing, rfl, rfl⟩⟩⟩
      | null =>
        simp only [Option.isSome_some, Bool.true_and, JVal.isObjB, Bool.false_eq_true,
          if_false] at h
        injection h with h
        refine ⟨objSet rl₀ "Ingredients" (.jobj []), [], h.symm, lookupKey_objSet_self ..,
          Or.inl ⟨rl₀, rfl, Or.inr ⟨?_, rfl, rfl⟩⟩⟩
        intro il₀ hc
        rw [hing] at hc
        cases hc
      | jbool b =>
        simp only [Option.isSome_some, Bool.true_and, JVal.isObjB, Bool.false_eq_true,
          if_false] at h
        injection h with h
        refine ⟨objSet rl₀ "Ingredients" (.jobj []), [], h.symm, lookupKey_objSet_self ..,
          Or.inl ⟨rl₀, rfl, Or.inr ⟨?_, rfl, rfl⟩⟩⟩
        intro il₀ hc
        rw [hing] at hc
        cases hc
      | jint n =>
        simp only [Option.isSome_some, Bool.true_and, JVal.isObjB, Bool.false_eq_true,
          if_false] at h
        injection h with h
        refine ⟨objSet rl₀ "Ingredients" (.jobj []), [], h.symm, lookupKey_objSet_self ..,
          Or.inl ⟨rl₀, rfl, Or.inr ⟨?_, rfl, rfl⟩⟩⟩
        intro il₀ hc
        rw [hing] at hc
        cases hc
      | jstr t =>
        simp only [Option.isSome_some, Bool.true_and, JVal.isObjB, Bool.false_eq_true,
          if_false] at h
        injection h with h
        refine ⟨objSet rl₀ "Ingredients" (.jobj []), [], h.symm, lookupKey_objSet_self ..,
          Or.inl ⟨rl₀, rfl, Or.inr ⟨?_, rfl, rfl⟩⟩⟩
        intro il₀ hc
        rw [hing] at hc
        cases hc
      | jarr xs =>
        simp only [Option.isSome_some, Bool.true_and, JVal.isObjB, Bool.false_eq_true,
          if_false] at h
        injection h with h
        refine ⟨objSet rl₀ "Ingredients" (.jobj []), [], h.symm, lookupKey_objSet_self ..,
          Or.inl ⟨rl₀, rfl, Or.inr ⟨?_, rfl, rfl⟩⟩⟩
        intro il₀ hc
        rw [hing] at hc
        cases hc

/-- Complete case analysis of MaxAllIngredients on a loaded document:
a successful run always goes through an object root rl whose
"Ingredients" member is an object il, folds the rows over il, and
writes the fold result back. -/
theorem MaxAllIngredients_some_shape (s : SaveState) (rows : List RefRow)
    (s' : SaveState) (hl : s.isSaveFileLoaded = true)
    (h : MaxAllIngredients s (some rows) = some s') :
    ∃ rl il il₁,
      lookupKey rl "Ingredients" = some (.jobj il) ∧
      maxAllFold (defaultGainTimes il) il rows = some il₁ ∧
      s' = { s with saveData := .jobj (objSet rl "Ingredients" (.jobj il₁)) } ∧
      ((∃ rl₀, s.saveData = .jobj rl₀ ∧
          ((∃ il₀, lookupKey rl₀ "Ingredients" = some (.jobj il₀) ∧
              rl = rl₀ ∧ il = il₀) ∨
           ((∀ il₀, lookupKey rl₀ "Ingredients" ≠ some (.jobj il₀)) ∧
              rl = objSet rl₀ "Ingredients" (.jobj []) ∧ il = []))) ∨
       (s.saveData = .null ∧ rl = [("Ingredients", .jobj [])] ∧ il = [])) := by
  rw [MaxAllIngredients, if_pos hl] at h
  cases hens : ensureIngredients s.saveData with
  | none => rw [hens] at h; cases h
  | some r =>
    rw [hens] at h
    obtain ⟨rl, il, hr, hing, hcase⟩ := ensureIngredients_shape hens
    subst hr
    dsimp only at h
    rw [hing] at h
    dsimp only at h
    cases hfold : maxAllFold (defaultGainTimes il) il rows with
    | none => rw [hfold] at h; cases h
    | some il₁ =>
      rw [hfold] at h
      injection h with h
      exact ⟨rl, il, il₁, hing, hfold, h.symm, hcase⟩

/-! ## C7: MaxAllIngredients synthesizes complete entries -/

/-- C7: a successful MaxAllIngredients run on a loaded document always
leaves the document with an "Ingredients" member that is an object
(creating it first when absent); a row whose capacity classifies to a
nonzero target and whose key is not yet in the collection is inserted as
the complete entry newIngredientEntry, which carries identifier,
level=1, parentID from the join, count=target, branchCount=0, the two
gain-timestamp fields, isNew=true and placeTagMask=1; and the concrete
scenario: an empty collection with the single row
{id=5, parentID=5, MaxCount=99} yields key "5" with count=66. -/
theorem claim_C7_synthesized_entries :
    (∀ (s : SaveState) (rows : List RefRow) (s' : SaveState),
      s.isSaveFileLoaded = true →
      MaxAllIngredients s (some rows) = some s' →
      ∃ rl' il', s'.saveData = .jobj rl' ∧
        lookupKey rl' "Ingredients" = some (.jobj il')) ∧
    (∀ (dt : String × String) (il : List (String × JVal)) (r : RefRow),
      rowTarget r ≠ 0 →
      lookupKey il (rowKey r) = none →
      maxAllStep dt il r =
        some (objSet il (rowKey r)
          (newIngredientEntry r.id r.parentID (rowTarget r) dt.1 dt.2)) ∧
      lookupKey
          (objSet il (rowKey r)
            (newIngredientEntry r.id r.parentID (rowTarget r) dt.1 dt.2))
          (rowKey r) =
        some (newIngredientEntry r.id r.parentID (rowTarget r) dt.1 dt.2)) ∧
    (∀ (id pid c : Int) (t1 t2 : String), ∃ lv,
      newIngredientEntry id pid c t1 t2 = .jobj lv ∧
      lookupKey lv "ingredientsID" = some (.jint id) ∧
      lookupKey lv "level" = some (.jint 1) ∧
      lookupKey lv "parentID" = some (.jint pid) ∧
      lookupKey lv "count" = some (.jint c) ∧
      lookupKey lv "branchCount" = some (.jint 0) ∧
      lookupKey lv "lastGainTime" = some (.jstr t1) ∧
      lookupKey lv "lastGainGameTime" = some (.jstr t2) ∧
      lookupKey lv "isNew" = some (.jbool true) ∧
      lookupKey lv "placeTagMask" = some (.jint 1)) ∧
    MaxAllIngredients c7state (some c7rows) = some c7result := by
  refine ⟨?_, ?_, ?_, ?_⟩
  · intro s rows s' hl h
    obtain ⟨rl, il, il₁, hing, hfold, hs', -⟩ := MaxAllIngredients_some_shape s rows s' hl h
    exact ⟨objSet rl "Ingredients" (.jobj il₁), il₁, by rw [hs'], lookupKey_objSet_self ..⟩
  · intro dt il r ht habs
    constructor
    · rw [maxAllStep]
      simp only [if_neg ht, habs]
    · exact lookupKey_objSet_self ..
  · intro id pid c t1 t2
    exact ⟨_, rfl, rfl, rfl, rfl, rfl, rfl, rfl, rfl, rfl, rfl⟩
  · rfl

/-- Witness for C7: the universally quantified parts applied to the
concrete scenario state and row. -/
theorem claim_C7_witness :
    (∃ rl' il', c7result.saveData = .jobj rl' ∧
      lookupKey rl' "Ingredients" = some (.jobj il')) ∧
    maxAllStep ("a", "b") [] ⟨5, 5, 99⟩ =
      some (objSet [] (rowKey ⟨5, 5, 99⟩)
        (newIngredientEntry 5 5 (rowTarget ⟨5, 5, 99⟩) "a" "b")) :=
  ⟨claim_C7_synthesized_entries.1 c7state c7rows c7result rfl
     claim_C7_synthesized_entries.2.2.2,
   (claim_C7_synthesized_entries.2.1 ("a", "b") [] ⟨5, 5, 99⟩ (by decide) rfl).1⟩

/-! ## C8: MaxOwnIngredients frame theorem -/

/-- Per-entry case split of the MaxOwnIngredients loop body: an entry is
either untouched, or it is an object with an integer ingredientsID whose
looked-up capacity classifies to a positive target and only its "count"
member is assigned. -/
theorem maxOwnVal_cases (f : Int → Option Int) (v : JVal) :
    maxOwnVal f v = v ∨
    ∃ lv id mc, v = .jobj lv ∧ lookupKey lv "ingredientsID" = some (.jint id) ∧
      f id = some mc ∧ 0 < GetDesiredMaxCountForTier mc ∧
      maxOwnVal f v = .jobj (objSet lv "count" (.jint (GetDesiredMaxCountForTier mc))) := by
  cases v with
  | null => exact Or.inl rfl
  | jbool b => exact Or.inl rfl
  | jint n => exact Or.inl rfl
  | jstr t => exact Or.inl rfl
  | jarr xs => exact Or.inl rfl
  | jobj lv =>
    cases hid : lookupKey lv "ingredientsID" with
    | none => left; rw [maxOwnVal, hid]
    | some w =>
      cases w with
      | jint id =>
        cases hf : f id with
        | none =>
          left
          rw [maxOwnVal, hid]
          dsimp only
          rw [hf]
        | some mc =>
          by_cases ht : 0 < GetDesiredMaxCountForTier mc
          · right
            refine ⟨lv, id, mc, rfl, hid, hf, ht, ?_⟩
            rw [maxOwnVal, hid]
            dsimp only
            rw [hf]
            simp [ht]
          · left
            rw [maxOwnVal, hid]
            dsimp only
            rw [hf]
            simp [ht]
      | null => left; rw [maxOwnVal, hid]
      | jbool b => left; rw [maxOwnVal, hid]
      | jstr t => left; rw [maxOwnVal, hid]
      | jarr xs => left; rw [maxOwnVal, hid]
      | jobj l2 => left; rw [maxOwnVal, hid]

/-- The loop body keeps every key. -/
theorem maxOwnVal_map_fst (f : Int → Option Int) (il : List (String × JVal)) :
    (il.map (fun kv => (kv.1, maxOwnVal f kv.2))).map Prod.fst = il.map Prod.fst := by
  induction il with
  | nil => rfl
  | cons kv rest ih => simp [ih]

/-- C8: on a loaded document whose Ingredients member is a map,
MaxOwnIngredients keeps the key set (same keys, same order — no
insertions, no deletions); each entry either stays equal or, when it
holds an integer ingredientsID whose looked-up capacity classifies to a
positive target, has exactly its "count" member assigned with every
other member unchanged; and every other top-level section is
untouched. -/
theorem claim_C8_own_ingredients_frame :
    ∀ (s : SaveState) (rl il : List (String × JVal)) (f : Int → Option Int),
      s.isSaveFileLoaded = true →
      s.saveData = .jobj rl →
      lookupKey rl "Ingredients" = some (.jobj il) →
      ∃ il',
        MaxOwnIngredients s (some f) =
          { s with saveData := .jobj (objSet rl "Ingredients" (.jobj il')) } ∧
        il' = il.map (fun kv => (kv.1, maxOwnVal f kv.2)) ∧
        il'.map Prod.fst = il.map Prod.fst ∧
        (∀ kv ∈ il, maxOwnVal f kv.2 = kv.2 ∨
          ∃ lv id mc, kv.2 = .jobj lv ∧
            lookupKey lv "ingredientsID" = some (.jint id) ∧
            f id = some mc ∧ 0 < GetDesiredMaxCountForTier mc ∧
            maxOwnVal f kv.2 =
              .jobj (objSet lv "count" (.jint (GetDesiredMaxCountForTier mc))) ∧
            (∀ fld, fld ≠ "count" →
              lookupKey (objSet lv "count" (.jint (GetDesiredMaxCountForTier mc))) fld =
                lookupKey lv fld)) ∧
        (∀ k, k ≠ "Ingredients" →
          lookupKey (objSet rl "Ingredients" (.jobj il')) k = lookupKey rl k) := by
  intro s rl il f hl hd hing
  obtain ⟨loaded, data, path⟩ := s
  cases hl
  cases hd
  refine ⟨il.map (fun kv => (kv.1, maxOwnVal f kv.2)),
    by simp [MaxOwnIngredients, hing], rfl, maxOwnVal_map_fst .., ?_, ?_⟩
  · intro kv hkv
    rcases maxOwnVal_cases f kv.2 with h | ⟨lv, id, mc, hv, hid, hf, ht, hval⟩
    · exact Or.inl h
    · exact Or.inr ⟨lv, id, mc, hv, hid, hf, ht, hval,
        fun fld hfld => lookupKey_objSet_ne _ _ _ _ hfld⟩
  · intro k hk
    exact lookupKey_objSet_ne _ _ _ _ hk

/-- Witness for C8: the frame theorem applied to a concrete collection
with one updatable entry (id 5, MaxCount 99) and one entry missing from
the Items table (id 7). -/
theorem claim_C8_witness :
    ∃ il', MaxOwnIngredients c8state (some c8db) =
        { c8state with saveData := .jobj (objSet c8rl "Ingredients" (.jobj il')) } ∧
      il'.map Prod.fst = c8il.map Prod.fst := by
  obtain ⟨il', h1, h2, h3, -, -⟩ :=
    claim_C8_own_ingredients_frame c8state c8rl c8il c8db rfl rfl rfl
  exact ⟨il', h1, h3⟩

/-! ## C2: WriteSaveFile backup and atomicity -/

/-- The computed backup path is never the original path (it lives in a
backup directory and carries a timestamp suffix). -/
theorem backupPathOf_ne (env : WriteEnv) (p : String) : backupPathOf env p ≠ p := by
  intro h
  have hlen := congrArg String.length h
  rw [backupPathOf] at hlen
  have h1 : ("/" : String).length = 1 := rfl
  have h2 : ("_" : String).length = 1 := rfl
  simp only [String.length_append, h1, h2] at hlen
  omega

/-- C2: for a loaded document with a known source path, every failing
WriteSaveFile call reports an empty backup path and leaves the original
file byte-identical to its pre-call state (the backup copy happens
before any byte of the original is touched); a successful call reports
the backup path and the backup holds exactly the pre-call original
bytes; and on every path the original ends up either untouched or
holding the complete encoded document — never half-written. -/
theorem claim_C2_write_backup :
    ∀ (s : SaveState) (env : WriteEnv) (fs : List (String × List Nat)),
      s.isSaveFileLoaded = true →
      s.currentSaveFilePath ≠ "" →
      ((WriteSaveFile s env fs).ok = false →
        (WriteSaveFile s env fs).backupFilepath = "" ∧
        fsRead (WriteSaveFile s env fs).fs s.currentSaveFilePath =
          fsRead fs s.currentSaveFilePath) ∧
      ((WriteSaveFile s env fs).ok = true →
        (WriteSaveFile s env fs).backupFilepath = backupPathOf env s.currentSaveFilePath ∧
        fsRead (WriteSaveFile s env fs).fs (WriteSaveFile s env fs).backupFilepath =
          fsRead fs s.currentSaveFilePath) ∧
      (fsRead (WriteSaveFile s env fs).fs s.currentSaveFilePath =
          fsRead fs s.currentSaveFilePath ∨
        ((WriteSaveFile s env fs).ok = true ∧
          fsRead (WriteSaveFile s env fs).fs s.currentSaveFilePath =
            some (encodeBytes (strBytes (dumpStr s.saveData))))) := by
  intro s env fs hl hp
  obtain ⟨loaded, data, path⟩ := s
  cases hl
  dsimp only at hp ⊢
  have hbp : ¬ path = backupPathOf env path :=
    fun h => backupPathOf_ne env path h.symm
  have hbp2 : ¬ backupPathOf env path = path := backupPathOf_ne env path
  cases hcd : env.createDirOk with
  | false =>
    have hW : WriteSaveFile ⟨true, data, path⟩ env fs = ⟨false, "", fs⟩ := by
      simp [WriteSaveFile, hp, hcd]
    rw [hW]
    exact ⟨fun _ => ⟨rfl, rfl⟩, fun hok => by simp at hok, Or.inl rfl⟩
  | true =>
    cases hread : fsRead fs path with
    | none =>
      have hW : WriteSaveFile ⟨true, data, path⟩ env fs = ⟨false, "", fs⟩ := by
        simp [WriteSaveFile, hp, hcd, hread]
      rw [hW]
      exact ⟨fun _ => ⟨rfl, hread⟩, fun hok => by simp at hok, Or.inl hread⟩
    | some ob =>
      cases hcp : env.copyOk with
      | false =>
        have hW : WriteSaveFile ⟨true, data, path⟩ env fs = ⟨false, "", fs⟩ := by
          simp [WriteSaveFile, hp, hcd, hread, hcp]
        rw [hW]
        exact ⟨fun _ => ⟨rfl, hread⟩, fun hok => by simp at hok, Or.inl hread⟩
      | true =>
        cases hdu : env.dumpOk with
        | false =>
          have hW : WriteSaveFile ⟨true, data, path⟩ env fs =
              ⟨false, "", fsWrite fs (backupPathOf env path) ob⟩ := by
            simp [WriteSaveFile, hp, hcd, hread, hcp, hdu]
          rw [hW]
          refine ⟨fun _ => ⟨rfl, ?_⟩, fun hok => by simp at hok, Or.inl ?_⟩
          · simp [fsWrite, fsRead, hbp, hread]
          · simp [fsWrite, fsRead, hbp, hread]
        | true =>
          cases hop : env.openOk with
          | false =>
            have hW : WriteSaveFile ⟨true, data, path⟩ env fs =
                ⟨false, "", fsWrite fs (backupPathOf env path) ob⟩ := by
              simp [WriteSaveFile, hp, hcd, hread, hcp, hdu, hop]
            rw [hW]
            refine ⟨fun _ => ⟨rfl, ?_⟩, fun hok => by simp at hok, Or.inl ?_⟩
            · simp [fsWrite, fsRead, hbp, hread]
            · simp [fsWrite, fsRead, hbp, hread]
          | true =>
            have hW : WriteSaveFile ⟨true, data, path⟩ env fs =
                ⟨true, backupPathOf env path,
                 fsWrite (fsWrite fs (backupPathOf env path) ob) path
                   (encodeBytes (strBytes (dumpStr data)))⟩ := by
              simp [WriteSaveFile, hp, hcd, hread, hcp, hdu, hop]
            rw [hW]
            refine ⟨fun hok => by simp at hok, fun _ => ⟨rfl, ?_⟩, Or.inr ⟨rfl, ?_⟩⟩
            · simp [fsWrite, fsRead, hbp2]
            · simp [fsWrite, fsRead]

/-- Witness for C2: a fully successful write on a concrete one-file
filesystem; the backup holds the pre-call original bytes. -/
theorem claim_C2_witness :
    (WriteSaveFile c2state c2env c2fs).backupFilepath =
      backupPathOf c2env c2state.currentSaveFilePath ∧
    fsRead (WriteSaveFile c2state c2env c2fs).fs
        (WriteSaveFile c2state c2env c2fs).backupFilepath =
      fsRead c2fs c2state.currentSaveFilePath :=
  (claim_C2_write_backup c2state c2env c2fs rfl (by simp [c2state])).2.1 rfl

/-! ## C6: lemmas about one MaxAllIngredients step -/

theorem PWr_of_keys {l : List (String × JVal)}
    (h : (l.map Prod.fst).Pairwise (fun a b => strLt a b = true)) : PWr l := by
  rw [PWr]
  exact List.pairwise_map.mp h

theorem newIngredientEntry_fields_PWr (id pid c : Int) (t1 t2 : String) :
    ∀ lv, newIngredientEntry id pid c t1 t2 = .jobj lv → PWr lv := by
  intro lv h
  rw [newIngredientEntry] at h
  injection h with h
  subst h
  refine PWr_of_keys ?_
  simp only [List.map_cons, List.map_nil]
  decide

/-- Frame of one step: entries at other keys are untouched. -/
theorem maxAllStep_frame {dt : String × String} {il : List (String × JVal)}
    {r : RefRow} {il₁ : List (String × JVal)} (h : maxAllStep dt il r = some il₁) :
    ∀ k, k ≠ rowKey r → lookupKey il₁ k = lookupKey il k := by
  intro k hk
  rw [maxAllStep] at h
  by_cases ht : rowTarget r = 0
  · simp [ht] at h
    rw [h]
  · simp only [if_neg ht] at h
    cases hlk : lookupKey il (rowKey r) with
    | none =>
      rw [hlk] at h
      injection h with h
      rw [← h]
      exact lookupKey_objSet_ne _ _ _ _ hk
    | some w =>
      rw [hlk] at h
      cases w with
      | jobj lv =>
        simp at h
        rw [← h]
        exact lookupKey_objSet_ne _ _ _ _ hk
      | null =>
        simp at h
        rw [← h]
        exact lookupKey_objSet_ne _ _ _ _ hk
      | jbool b => simp at h
      | jint n => simp at h
      | jstr t => simp at h
      | jarr xs => simp at h

/-- Post state of one step at its own key (target nonzero): an object
entry whose "count" member is the target; sorted fields when the input
entries were well formed. -/
theorem maxAllStep_post {dt : String × String} {il : List (String × JVal)}
    {r : RefRow} {il₁ : List (String × JVal)} (h : maxAllStep dt il r = some il₁)
    (ht : rowTarget r ≠ 0) :
    ∃ l₁, lookupKey il₁ (rowKey r) = some (.jobj l₁) ∧
      lookupKey l₁ "count" = some (.jint (rowTarget r)) ∧
      (entriesWF il → PWr l₁) := by
  rw [maxAllStep] at h
  simp only [if_neg ht] at h
  cases hlk : lookupKey il (rowKey r) with
  | none =>
    rw [hlk] at h
    injection h with h
    subst h
    refine ⟨[("branchCount", .jint 0), ("count", .jint (rowTarget r)),
      ("ingredientsID", .jint r.id), ("isNew", .jbool true),
      ("lastGainGameTime", .jstr dt.2), ("lastGainTime", .jstr dt.1),
      ("level", .jint 1), ("parentID", .jint r.parentID),
      ("placeTagMask", .jint 1)], ?_, ?_, ?_⟩
    · exact lookupKey_objSet_self ..
    · rfl
    · intro _
      exact newIngredientEntry_fields_PWr r.id r.parentID (rowTarget r) dt.1 dt.2 _ rfl
  | some w =>
    rw [hlk] at h
    cases w with
    | jobj lv =>
      simp at h
      subst h
      refine ⟨objSet lv "count" (.jint (rowTarget r)), lookupKey_objSet_self ..,
        lookupKey_objSet_self .., ?_⟩
      intro hE
      exact PWr_objSet (hE (rowKey r, .jobj lv) (mem_of_lookupKey hlk) lv rfl)
    | null =>
      simp at h
      subst h
      refine ⟨[("count", .jint (rowTarget r))], lookupKey_objSet_self .., rfl, ?_⟩
      intro _
      simp [PWr]
    | jbool b => simp at h
    | jint n => simp at h
    | jstr t => simp at h
    | jarr xs => simp at h

/-- One step preserves the sortedness invariants. -/
theorem maxAllStep_WF {dt : String × String} {il : List (String × JVal)}
    {r : RefRow} {il₁ : List (String × JVal)} (h : maxAllStep dt il r = some il₁)
    (h1 : PWr il) (h2 : entriesWF il) : PWr il₁ ∧ entriesWF il₁ := by
  rw [maxAllStep] at h
  by_cases ht : rowTarget r = 0
  · simp [ht] at h
    rw [← h]
    exact ⟨h1, h2⟩
  · simp only [if_neg ht] at h
    cases hlk : lookupKey il (rowKey r) with
    | none =>
      rw [hlk] at h
      injection h with h
      subst h
      refine ⟨PWr_objSet h1, ?_⟩
      intro kv hkv lv hlv
      rcases mem_objSet_elim hkv with hkv | hkv
      · rw [hkv] at hlv
        exact newIngredientEntry_fields_PWr r.id r.parentID (rowTarget r) dt.1 dt.2 lv hlv
      · exact h2 kv hkv lv hlv
    | some w =>
      rw [hlk] at h
      cases w with
      | jobj lv0 =>
        simp at h
        subst h
        refine ⟨PWr_objSet h1, ?_⟩
        intro kv hkv lv hlv
        rcases mem_objSet_elim hkv with hkv | hkv
        · rw [hkv] at hlv
          injection hlv.symm with hlv2
          rw [hlv2]
          exact PWr_objSet (h2 (rowKey r, .jobj lv0) (mem_of_lookupKey hlk) lv0 rfl)
        · exact h2 kv hkv lv hlv
      | null =>
        simp at h
        subst h
        refine ⟨PWr_objSet h1, ?_⟩
        intro kv hkv lv hlv
        rcases mem_objSet_elim hkv with hkv | hkv
        · rw [hkv] at hlv
          injection hlv.symm with hlv2
          rw [hlv2]
          simp [PWr]
        · exact h2 kv hkv lv hlv
      | jbool b => simp at h
      | jint n => simp at h
      | jstr t => simp at h
      | jarr xs => simp at h

/-! ## C6: lemmas about the whole row fold -/

theorem posKeys_cons_zero {r : RefRow} {rs : List RefRow} (ht : rowTarget r = 0) :
    posKeys (r :: rs) = posKeys rs := by
  simp [posKeys, List.filterMap_cons, ht]

theorem posKeys_cons_pos {r : RefRow} {rs : List RefRow} (ht : ¬ rowTarget r = 0) :
    posKeys (r :: rs) = rowKey r :: posKeys rs := by
  simp [posKeys, List.filterMap_cons, ht]

/-- Keys outside the positive keys of the rows are untouched by the fold. -/
theorem maxAllFold_frame {dt : String × String} :
    ∀ {rows : List RefRow} {il e : List (String × JVal)},
      maxAllFold dt il rows = some e →
      ∀ k, k ∉ posKeys rows → lookupKey e k = lookupKey il k := by
  intro rows
  induction rows with
  | nil =>
    intro il e h k _
    rw [maxAllFold] at h
    injection h with h
    rw [h]
  | cons r rs ih =>
    intro il e h k hk
    rw [maxAllFold] at h
    cases hst : maxAllStep dt il r with
    | none => rw [hst] at h; cases h
    | some il₁ =>
      rw [hst] at h
      by_cases ht : rowTarget r = 0
      · rw [posKeys_cons_zero ht] at hk
        have hstep : il₁ = il := by
          rw [maxAllStep] at hst
          simp [ht] at hst
          rw [hst]
        rw [ih h k hk, hstep]
      · rw [posKeys_cons_pos ht] at hk
        simp only [List.mem_cons, not_or] at hk
        rw [ih h k hk.2]
        exact maxAllStep_frame hst k hk.1


/-- An object entry at some key stays an object entry through the fold. -/
theorem maxAllFold_obj {dt : String × String} :
    ∀ {rows : List RefRow} {il e : List (String × JVal)} {k : String},
      maxAllFold dt il rows = some e →
      (∃ l, lookupKey il k = some (.jobj l)) →
      ∃ l', lookupKey e k = some (.jobj l') := by
  intro rows
  induction rows with
  | nil =>
    intro il e k h hobj
    rw [maxAllFold] at h
    injection h with h
    rw [← h]
    exact hobj
  | cons r rs ih =>
    intro il e k h hobj
    rw [maxAllFold] at h
    cases hst : maxAllStep dt il r with
    | none => rw [hst] at h; cases h
    | some il₁ =>
      rw [hst] at h
      refine ih h ?_
      by_cases hk : k = rowKey r
      · subst hk
        by_cases ht : rowTarget r = 0
        · have hstep : il₁ = il := by
            rw [maxAllStep] at hst
            simp [ht] at hst
            rw [hst]
          rw [hstep]
          exact hobj
        · obtain ⟨l₁, hl₁, -, -⟩ := maxAllStep_post hst ht
          exact ⟨l₁, hl₁⟩
      · rw [maxAllStep_frame hst k hk]
        exact hobj

/-- The fold preserves the sortedness invariants. -/
theorem maxAllFold_WF {dt : String × String} :
    ∀ {rows : List RefRow} {il e : List (String × JVal)},
      maxAllFold dt il rows = some e →
      PWr il → entriesWF il → PWr e ∧ entriesWF e := by
  intro rows
  induction rows with
  | nil =>
    intro il e h h1 h2
    rw [maxAllFold] at h
    injection h with h
    rw [← h]
    exact ⟨h1, h2⟩
  | cons r rs ih =>
    intro il e h h1 h2
    rw [maxAllFold] at h
    cases hst : maxAllStep dt il r with
    | none => rw [hst] at h; cases h
    | some il₁ =>
      rw [hst] at h
      obtain ⟨h1', h2'⟩ := maxAllStep_WF hst h1 h2
      exact ih h h1' h2'

/-! ## C6: the agreement relation and the absorption lemma -/

theorem OAgree_not_mem {K : List String} {k : String} {o₀ oe : Option JVal}
    (hk : k ∉ K) (h : OAgree K k o₀ oe) : o₀ = oe := by
  rwa [OAgree, if_neg hk] at h

theorem OAgree_tail {K : List String} {key k : String} {o₀ oe : Option JVal}
    (hne : k ≠ key) (h : OAgree (key :: K) k o₀ oe) : OAgree K k o₀ oe := by
  rw [OAgree] at h ⊢
  by_cases hk : k ∈ K
  · rw [if_pos hk]
    rw [if_pos (List.mem_cons_of_mem _ hk)] at h
    exact h
  · rw [if_neg hk]
    rw [if_neg (by simp [hne, hk])] at h
    exact h

theorem ilAgree_refl (K : List String) (il : List (String × JVal)) : ilAgree K il il := by
  refine ⟨rfl, fun k => ?_⟩
  rw [OAgree]
  by_cases hk : k ∈ K
  · rw [if_pos hk]
    exact Or.inl rfl
  · rw [if_neg hk]

theorem PWr_transfer {l₀ l₁ : List (String × JVal)}
    (hf : l₀.map Prod.fst = l₁.map Prod.fst) (h : PWr l₁) : PWr l₀ := by
  rw [PWr] at h ⊢
  have h1 : (l₁.map Prod.fst).Pairwise (fun a b => strLt a b = true) :=
    List.pairwise_map.mpr h
  rw [← hf] at h1
  exact List.pairwise_map.mp h1

/-- The absorption lemma: a state that agrees with the result of a fold
up to count overwrites at the processed keys is mapped by the same fold
(with any default timestamps) exactly onto that result.  Applied with
the result itself it gives idempotence of the row loop. -/
theorem maxAllFold_absorb :
    ∀ (rows : List RefRow) (dt dt' : String × String)
      (il e il₀ : List (String × JVal)),
      maxAllFold dt il rows = some e →
      PWr il → entriesWF il →
      ilAgree (posKeys rows) il₀ e →
      maxAllFold dt' il₀ rows = some e := by
  intro rows
  induction rows with
  | nil =>
    intro dt dt' il e il₀ h h1 h2 hA
    rw [maxAllFold] at h
    injection h with h
    subst h
    have hPW₀ : PWr il₀ := PWr_transfer hA.1 h1
    have hext : il₀ = il := ext_lookup_eq hPW₀ hA.1
      (fun k => OAgree_not_mem (by simp [posKeys]) (hA.2 k))
    rw [maxAllFold, hext]
  | cons r rs ih =>
    intro dt dt' il e il₀ h h1 h2 hA
    rw [maxAllFold] at h
    cases hst : maxAllStep dt il r with
    | none => rw [hst] at h; cases h
    | some il₁ =>
      rw [hst] at h
      obtain ⟨h1', h2'⟩ := maxAllStep_WF hst h1 h2
      by_cases ht : rowTarget r = 0
      · have hstep : il₁ = il := by
          rw [maxAllStep] at hst
          simp [ht] at hst
          rw [hst]
        subst hstep
        have hstep0 : maxAllStep dt' il₀ r = some il₀ := by
          rw [maxAllStep]
          simp [ht]
        rw [maxAllFold, hstep0]
        refine ih dt dt' il₁ e il₀ h h1 h2 ?_
        rw [← posKeys_cons_zero ht]
        exact hA
      · -- facts about the first-run step and result
        obtain ⟨l₁, hl₁, hl₁count, hl₁PW⟩ := maxAllStep_post hst ht
        obtain ⟨le, hle⟩ := maxAllFold_obj h ⟨l₁, hl₁⟩
        have hPWe : PWr e := (maxAllFold_WF h h1' h2').1
        have hPW₀ : PWr il₀ := PWr_transfer hA.1 hPWe
        -- the second-run state at the key
        have hAkey := hA.2 (rowKey r)
        rw [OAgree, if_pos (by rw [posKeys_cons_pos ht]; exact List.mem_cons_self ..)]
          at hAkey
        have hobj₀ : ∃ l₀, lookupKey il₀ (rowKey r) = some (.jobj l₀) ∧
            objSet l₀ "count" (.jint (rowTarget r)) =
              objSet le "count" (.jint (rowTarget r)) := by
          rcases hAkey with hAkey | ⟨c, le', hoe, ho₀⟩
          · rw [hle] at hAkey
            exact ⟨le, hAkey, rfl⟩
          · rw [hle] at hoe
            injection hoe with hoe
            injection hoe with hoe
            subst hoe
            exact ⟨objSet le "count" (.jint c), ho₀, objSet_objSet_same ..⟩
        obtain ⟨l₀, hlk₀, hsame⟩ := hobj₀
        have hstep' : maxAllStep dt' il₀ r =
            some (objSet il₀ (rowKey r)
              (.jobj (objSet le "count" (.jint (rowTarget r))))) := by
          rw [maxAllStep]
          simp only [if_neg ht, hlk₀]
          rw [hsame]
        rw [maxAllFold, hstep']
        refine ih dt dt' il₁ e _ h h1' h2' ?_
        -- agreement of the updated second-run state with e over the tail keys
        have hkeymem : rowKey r ∈ il₀.map Prod.fst := mem_keys_of_lookupKey hlk₀
        refine ⟨?_, ?_⟩
        · rw [map_fst_objSet_of_mem hPW₀ hkeymem]
          exact hA.1
        · intro k
          by_cases hkk : k = rowKey r
          · rw [hkk]
            rw [lookupKey_objSet_self, OAgree]
            by_cases hkrs : rowKey r ∈ posKeys rs
            · rw [if_pos hkrs]
              exact Or.inr ⟨rowTarget r, le, hle, rfl⟩
            · rw [if_neg hkrs]
              have hfr : lookupKey e (rowKey r) = lookupKey il₁ (rowKey r) :=
                maxAllFold_frame h (rowKey r) hkrs
              rw [hl₁] at hfr
              rw [hle] at hfr
              injection hfr with hfr
              injection hfr with hfr
              subst hfr
              rw [hle, objSet_eq_self (hl₁PW h2) hl₁count]
          · rw [lookupKey_objSet_ne _ _ _ _ hkk]
            exact OAgree_tail hkk (by rw [← posKeys_cons_pos ht]; exact hA.2 k)

/-! ## C6: idempotence of MaxAllIngredients -/

/-- C6: on any document satisfying the std::map representation
invariant, running MaxAllIngredients twice with the same reference rows
produces exactly the document of one run: the second run updates
existing entries to the same targets and adds nothing new. -/
theorem claim_C6_max_all_idempotent :
    ∀ (s : SaveState) (db : Option (List RefRow)) (s' : SaveState),
      DocWF s.saveData →
      MaxAllIngredients s db = some s' →
      MaxAllIngredients s' db = some s' := by
  intro s db s' hWF h
  by_cases hl : s.isSaveFileLoaded = true
  · cases db with
    | none =>
      rw [MaxAllIngredients, if_pos hl] at h
      injection h with h
      subst h
      rw [MaxAllIngredients, if_pos hl]
    | some rows =>
      obtain ⟨rl, il, il₁, hing, hfold, hs', hcase⟩ :=
        MaxAllIngredients_some_shape s rows s' hl h
      have hinv : PWr rl ∧ PWr il ∧ entriesWF il := by
        rcases hcase with ⟨rl₀, hdata, hsub⟩ | ⟨hdata, hrl, hil⟩
        · have hDoc : PWr rl₀ ∧ ∀ kv ∈ rl₀, SecWF kv.2 := by
            rw [hdata] at hWF
            exact hWF
          rcases hsub with ⟨il₀, hing₀, hrleq, hileq⟩ | ⟨-, hrleq, hileq⟩
          · subst hrleq
            subst hileq
            have hsec : SecWF (.jobj il) :=
              hDoc.2 ("Ingredients", .jobj il) (mem_of_lookupKey hing)
            exact ⟨hDoc.1, hsec.1, hsec.2⟩
          · subst hrleq
            subst hileq
            exact ⟨PWr_objSet hDoc.1, by simp [PWr], fun kv hkv => nomatch hkv⟩
        · subst hrl
          subst hil
          exact ⟨by simp [PWr], by simp [PWr], fun kv hkv => nomatch hkv⟩
      have hload' : s'.isSaveFileLoaded = true := by rw [hs']; exact hl
      have hdata' : s'.saveData = .jobj (objSet rl "Ingredients" (.jobj il₁)) := by
        rw [hs']
      have hing' : lookupKey (objSet rl "Ingredients" (.jobj il₁)) "Ingredients" =
          some (.jobj il₁) := lookupKey_objSet_self ..
      have hfold2 : maxAllFold (defaultGainTimes il₁) il₁ rows = some il₁ :=
        maxAllFold_absorb rows _ _ il il₁ il₁ hfold hinv.2.1 hinv.2.2 (ilAgree_refl _ _)
      have hens : ensureIngredients s'.saveData = some s'.saveData := by
        rw [hdata', ensureIngredients]
        rw [show JVal.containsKey (.jobj (objSet rl "Ingredients" (.jobj il₁)))
          "Ingredients" =
          (lookupKey (objSet rl "Ingredients" (.jobj il₁)) "Ingredients").isSome from rfl]
        rw [hing']
        simp [JVal.isObjB]
      rw [MaxAllIngredients, if_pos hload']
      rw [hens, hdata']
      dsimp only
      rw [hing']
      dsimp only
      rw [hfold2]
      dsimp only
      rw [show objSet (objSet rl "Ingredients" (.jobj il₁)) "Ingredients" (.jobj il₁) =
        objSet rl "Ingredients" (.jobj il₁) from
        objSet_eq_self (PWr_objSet hinv.1) hing']
      rw [← hdata']
  · rw [MaxAllIngredients.eq_def, if_neg hl] at h
    injection h with h
    subst h
    rw [MaxAllIngredients.eq_def, if_neg hl]

/-- Witness for C6: the idempotence theorem applied to the concrete C7
scenario (empty collection, one row with MaxCount 99): a second run on
the run-1 result reproduces it exactly. -/
theorem claim_C6_witness : MaxAllIngredients c7result (some c7rows) = some c7result :=
  claim_C6_max_all_idempotent c7state (some c7rows) c7result
    (by
      show DocWF (.jobj [("Ingredients", .jobj [])])
      exact ⟨by simp [PWr], by
        intro kv hkv
        simp at hkv
        subst hkv
        exact ⟨List.Pairwise.nil, fun kv h => nomatch h⟩⟩)
    rfl

/-! ## C10: the first entry is the minimal key; determinism -/

/-- C10: under the std::map invariant the first entry of the ingredients
collection has the minimal key (every key equals it or is greater), the
default timestamps MaxAllIngredients copies into synthesized entries
depend only on that minimal-key entry, and the whole operation is a
function of the document and the reference rows: equal inputs give equal
resulting documents. -/
theorem claim_C10_first_entry_min :
    (∀ (k : String) (v : JVal) (rest : List (String × JVal)),
      PWr ((k, v) :: rest) →
      (∀ p ∈ (k, v) :: rest, p.1 = k ∨ strLt k p.1 = true) ∧
      defaultGainTimes ((k, v) :: rest) = defaultGainTimes [(k, v)]) ∧
    (∀ (s₁ s₂ : SaveState) (db₁ db₂ : Option (List RefRow)),
      s₁ = s₂ → db₁ = db₂ → MaxAllIngredients s₁ db₁ = MaxAllIngredients s₂ db₂) := by
  constructor
  · intro k v rest hPW
    rw [PWr, List.pairwise_cons] at hPW
    refine ⟨?_, rfl⟩
    intro p hp
    rcases List.mem_cons.mp hp with h | h
    · left; rw [h]
    · right; exact hPW.1 p h
  · intro s₁ s₂ db₁ db₂ h1 h2
    rw [h1, h2]

/-- Witness for C10: the minimal-key fact applied to a concrete
two-entry collection. -/
theorem claim_C10_witness :
    (∀ p ∈ [("1", JVal.jstr "x"), ("2", JVal.null)], p.1 = "1" ∨ strLt "1" p.1 = true) ∧
    defaultGainTimes [("1", JVal.jstr "x"), ("2", JVal.null)] =
      defaultGainTimes [("1", JVal.jstr "x")] :=
  claim_C10_first_entry_min.1 "1" (JVal.jstr "x") [("2", JVal.null)]
    (by rw [PWr]; simp [List.pairwise_cons]; decide)
